import Mathlib

/-! Purchase-order system (`proj05.cpp`): bounded buffer, producers, consumer

A shallow embedding of the synchronization core of `proj05.cpp`.

* `unsigned int` values are natural numbers; the only unsigned arithmetic of
  the program, `item.quantity -= order.quantity`, is embedded with its
  wrap-around modulo `2 ^ 32` (`usub`).
* `double` values (`price`, `transactionAmount`) are elements of a type `α`
  that comes with the three `double` operations the program uses
  (`DoubleOps`): the constant `0.0`, the product `order.quantity * item.price`
  and `formatPrice`.
* A blocked `wait` of the bounded buffer is a step that is not enabled: the
  operation returns `none`.
-/

namespace Proj05

/-! ## Data model (lines 16-28) -/

/-- The record `struct Order` (lines 23-28). -/
structure Order where
  customerId : Nat
  productId : Nat
  quantity : Nat
  isEndOfData : Bool
  deriving DecidableEq, Repr

/-! ## `BoundedBuffer` (lines 37-66) -/

/-- The class `BoundedBuffer`: the queue `buffer` (front of the queue is the
head of the list) and the capacity `maxSize`. The mutex and the two condition
variables carry no data. -/
structure BoundedBuffer where
  buffer : List Order
  maxSize : Nat
  deriving DecidableEq, Repr

/-- The constructor `BoundedBuffer(size_t size)` (line 46): an empty queue. -/
def BoundedBuffer.new (size : Nat) : BoundedBuffer :=
  { buffer := [], maxSize := size }

/-- The method `insert` (lines 48-57). The call goes past `notFull.wait` only
when `buffer.size() < maxSize`; it then pushes `item` at the back. `none`
means the caller is still waiting. -/
def BoundedBuffer.insert (b : BoundedBuffer) (item : Order) : Option BoundedBuffer :=
  if b.buffer.length < b.maxSize then
    some { b with buffer := b.buffer ++ [item] }
  else
    none

/-- The method `remove` (lines 58-65). The call goes past `notEmpty.wait` only
when `!buffer.empty()`; it then returns `buffer.front()` and pops it. `none`
means the caller is still waiting. -/
def BoundedBuffer.remove (b : BoundedBuffer) : Option (Order × BoundedBuffer) :=
  match b.buffer with
  | [] => none
  | item :: rest => some (item, { b with buffer := rest })

/-- One call on the buffer, as issued by some thread. -/
inductive BufferOp where
  | insert (item : Order)
  | remove
  deriving DecidableEq, Repr

/-- Runs a sequence of buffer calls, each one taken only when its wait
predicate holds (`none` otherwise). The second component collects the records
returned by `remove`, in order. -/
def runOps : BoundedBuffer × List Order → List BufferOp → Option (BoundedBuffer × List Order)
  | st, [] => some st
  | (b, out), BufferOp.insert item :: ops =>
    match b.insert item with
    | some b1 => runOps (b1, out) ops
    | none => none
  | (b, out), BufferOp.remove :: ops =>
    match b.remove with
    | some (item, b1) => runOps (b1, out ++ [item]) ops
    | none => none

/-- The records passed to `insert` by a sequence of calls, in order. -/
def insertedOf : List BufferOp → List Order
  | [] => []
  | BufferOp.insert item :: ops => item :: insertedOf ops
  | BufferOp.remove :: ops => insertedOf ops

/-! ## Inventory records and the `double` operations -/

/-- The three `double` operations of the program: the literal `0.0`
(line 166), the product `order.quantity * item.price` (line 180, the unsigned
quantity converted to `double`) and `formatPrice` (lines 70-74). -/
structure DoubleOps (α : Type) where
  zero : α
  qtyMul : Nat → α → α
  formatPrice : α → String

/-- The record `struct InventoryItem` (lines 16-21). -/
structure InventoryItem (α : Type) where
  productId : Nat
  price : α
  quantity : Nat
  description : String
  deriving DecidableEq, Repr

/-- The modulus of `unsigned int`. -/
def UINT_MOD : Nat := 2 ^ 32

/-- Subtraction of `unsigned int` values, with wrap-around: the operation
behind `item.quantity -= order.quantity` (line 178). -/
def usub (a b : Nat) : Nat :=
  (a + (UINT_MOD - b % UINT_MOD)) % UINT_MOD

/-- Every stored quantity is a value of type `unsigned int`. -/
def InvWF {α : Type} (inv : List (InventoryItem α)) : Prop :=
  ∀ x ∈ inv, x.quantity < UINT_MOD

/-! ## The consumer (lines 136-208) -/

/-- The local variables of one iteration of the consumer loop
(lines 164-168). -/
structure OrderVars (α : Type) where
  orderFilled : Bool
  itemFound : Bool
  transactionAmount : α
  productDesc : String
  resultMessage : String
  deriving DecidableEq, Repr

/-- The initial values of the locals (lines 164-168). -/
def OrderVars.init {α : Type} (D : DoubleOps α) : OrderVars α :=
  { orderFilled := false, itemFound := false, transactionAmount := D.zero,
    productDesc := "", resultMessage := "" }

/-- The loop `for (auto& item : inventory)` with its `break` (lines 172-187):
the first record whose `productId` matches ends the scan. -/
def scanInventory {α : Type} (D : DoubleOps α) (order : Order) :
    List (InventoryItem α) → OrderVars α → List (InventoryItem α) × OrderVars α
  | [], v => ([], v)
  | item :: rest, v =>
    if item.productId = order.productId then
      let v1 := { v with itemFound := true, productDesc := item.description }
      if item.quantity ≥ order.quantity then
        ({ item with quantity := usub item.quantity order.quantity } :: rest,
          { v1 with orderFilled := true,
                    transactionAmount := D.qtyMul order.quantity item.price,
                    resultMessage := "Filled" })
      else
        (item :: rest, { v1 with resultMessage := "       Rejected - Insufficient quantity" })
    else
      let r := scanInventory D order rest v
      (item :: r.1, r.2)

/-- The block guarded by `inventoryMutex` (lines 170-192): the scan, then the
test `if (!itemFound)`. -/
def lockedBlock {α : Type} (D : DoubleOps α) (inv : List (InventoryItem α)) (order : Order) :
    List (InventoryItem α) × OrderVars α :=
  let r := scanInventory D order inv (OrderVars.init D)
  if r.2.itemFound = false then
    (r.1, { r.2 with resultMessage := "       Rejected - Item not found" })
  else
    r

/-- One line of the file `log`; the columns are kept as fields (the `setw`
padding is not part of the model). -/
inductive LogLine where
  | header
  | entry (customerId productId : Nat) (description : String) (ordered : Nat)
      (amount : String) (result : String)
  deriving DecidableEq, Repr

/-- The log entry of one order (lines 195-203). -/
def logEntry {α : Type} (D : DoubleOps α) (order : Order) (v : OrderVars α) : LogLine :=
  LogLine.entry order.customerId order.productId
    (if v.itemFound then v.productDesc else "Unknown Item")
    order.quantity
    (if v.orderFilled then D.formatPrice v.transactionAmount else "$0.00")
    v.resultMessage

/-- The order a log line reports (customer, product, quantity ordered); the
header reports none. -/
def LogLine.order? : LogLine → Option (Nat × Nat × Nat)
  | LogLine.header => none
  | LogLine.entry c p _ q _ _ => some (c, p, q)

/-- What the consumer holds across iterations: the counter
`producersFinished`, the global `inventory` and the contents of `log`. -/
structure ConsumerState (α : Type) where
  producersFinished : Int
  inventory : List (InventoryItem α)
  log : List LogLine
  deriving DecidableEq, Repr

/-- The body of the consumer loop after `remove()` has returned `order`
(lines 158-203). -/
def consumerIter {α : Type} (D : DoubleOps α) (s : ConsumerState α) (order : Order) :
    ConsumerState α :=
  if order.isEndOfData then
    { s with producersFinished := s.producersFinished + 1 }
  else
    let r := lockedBlock D s.inventory order
    { s with inventory := r.1, log := s.log ++ [logEntry D order r.2] }

/-- How a run of the consumer loop over a given stream ends: `stopped` is
true when the loop condition failed (the thread goes on to close the log),
false when the thread waits in `remove()` for a record the stream does not
have. `rest` is the part of the stream that was not dequeued. -/
structure ConsumerRun (α : Type) where
  stopped : Bool
  state : ConsumerState α
  rest : List Order
  deriving DecidableEq, Repr

/-- The loop `while (producersFinished < numProducers)` (lines 155-204), fed
with the records `remove()` returns, in order. -/
def consumerLoop {α : Type} (D : DoubleOps α) (numProducers : Int) :
    ConsumerState α → List Order → ConsumerRun α
  | s, [] =>
    if s.producersFinished < numProducers then
      { stopped := false, state := s, rest := [] }
    else
      { stopped := true, state := s, rest := [] }
  | s, order :: rest =>
    if s.producersFinished < numProducers then
      consumerLoop D numProducers (consumerIter D s order) rest
    else
      { stopped := true, state := s, rest := order :: rest }

/-- The state of the consumer when it enters the loop: counter 0 (line 153)
and a log that holds the header (lines 144-151). -/
def ConsumerState.start {α : Type} (inv : List (InventoryItem α)) : ConsumerState α :=
  { producersFinished := 0, inventory := inv, log := [LogLine.header] }

/-- The number of end-of-data records in a list. -/
def countSentinels (l : List Order) : Nat :=
  (l.filter (fun o => o.isEndOfData)).length

/-- The real orders of a list, in order. -/
def realOrders (l : List Order) : List Order :=
  l.filter (fun o => !o.isEndOfData)

/-- The records dequeued from `stream` when `rest` is what is left of it. -/
def dequeuedOf (stream rest : List Order) : List Order :=
  stream.take (stream.length - rest.length)

/-- The locked block applied to a sequence of orders, one after another; each
order is returned with the values its locals had at the end of the block. -/
def processOrders {α : Type} (D : DoubleOps α) :
    List (InventoryItem α) → List Order → List (InventoryItem α) × List (Order × OrderVars α)
  | inv, [] => (inv, [])
  | inv, order :: rest =>
    let r := lockedBlock D inv order
    let t := processOrders D r.1 rest
    (t.1, (order, r.2) :: t.2)

/-- The quantity of the first record with `productId = p`. -/
def firstQty {α : Type} (p : Nat) : List (InventoryItem α) → Option Nat
  | [] => none
  | item :: rest => if item.productId = p then some item.quantity else firstQty p rest

/-- The sum of the quantities of the orders for product `p` that were
filled. -/
def filledSum {α : Type} (p : Nat) : List (Order × OrderVars α) → Nat
  | [] => 0
  | (o, v) :: rest =>
    (if o.productId = p ∧ v.orderFilled = true then o.quantity else 0) + filledSum p rest

/-- An exact model of the `double` operations on amounts that are whole
numbers of cents: the value is the number of cents. -/
def centsOps : DoubleOps Nat :=
  { zero := 0
    qtyMul := fun q price => q * price
    formatPrice := fun c =>
      "$" ++ toString (c / 100) ++ "." ++ toString (c % 100 / 10) ++ toString (c % 10) }

/-! ## Files, producers and the ways a function ends -/

/-- How a function of the program ends: it returns, it ends the process with
`exit(status)`, or it ends the calling thread with `pthread_exit(NULL)`. -/
inductive Ending where
  | returned
  | processExit (status : Int)
  | threadExit
  deriving DecidableEq, Repr

/-- The function `readInventory` (lines 76-91). The argument `file` is `none`
when the file cannot be opened, and otherwise the records the read loop
parses; the result is the text sent to `std::cerr`, the ending and the global
`inventory` afterwards. -/
def readInventory {α : Type} (filename : String) (file : Option (List (InventoryItem α)))
    (inventory : List (InventoryItem α)) : String × Ending × List (InventoryItem α) :=
  match file with
  | none => ("Could not open " ++ filename ++ "\n", Ending.processExit 1, inventory)
  | some items => ("", Ending.returned, inventory ++ items)

/-- The function `writeInventory` (lines 93-109). The argument `opened` tells
whether the output file could be opened; the result is the text sent to
`std::cerr`, the ending and the records written (one line each). -/
def writeInventory {α : Type} (filename : String) (opened : Bool)
    (inventory : List (InventoryItem α)) : String × Ending × List (InventoryItem α) :=
  if opened then
    ("", Ending.returned, inventory)
  else
    ("Could not open " ++ filename ++ "\n", Ending.processExit 1, [])

/-- The three numbers read from one line of an order file (line 122). -/
structure OrderLine where
  customerId : Nat
  productId : Nat
  quantity : Nat
  deriving DecidableEq, Repr

/-- The read loop of `producerThread` (lines 121-125): each line read is
stored into the three number fields of the local `order`, which is then
passed to `insert`. The result lists the records passed to `insert`. -/
def producerLoop (order : Order) : List OrderLine → List Order
  | [] => []
  | line :: rest =>
    let order1 : Order :=
      { order with customerId := line.customerId, productId := line.productId,
                   quantity := line.quantity }
    order1 :: producerLoop order1 rest

/-- A run of `producerThread`: the text sent to `std::cerr`, the records
passed to `insert`, in order (the calls the thread makes when none of them
waits for ever), and the ending. -/
structure ProducerRun where
  stderr : String
  inserts : List Order
  ending : Ending
  deriving DecidableEq, Repr

/-- The function `producerThread` (lines 111-134). The argument `orderFile`
is `none` when the file `orders<threadNum>` cannot be opened, and otherwise
the lines the read loop parses. The number fields of the locals `order` and
`endOrder` are not initialised by the program: `stack.1` and `stack.2` are
the values they happen to hold. -/
def producerThread (threadNum : Nat) (orderFile : Option (List OrderLine))
    (stack : OrderLine × OrderLine) : ProducerRun :=
  let filename := "orders" ++ toString threadNum
  match orderFile with
  | none =>
    { stderr := "Could not open " ++ filename ++ "\n", inserts := [],
      ending := Ending.threadExit }
  | some lines =>
    let order : Order :=
      { customerId := stack.1.customerId, productId := stack.1.productId,
        quantity := stack.1.quantity, isEndOfData := false }
    let endOrder : Order :=
      { customerId := stack.2.customerId, productId := stack.2.productId,
        quantity := stack.2.quantity, isEndOfData := true }
    { stderr := "", inserts := producerLoop order lines ++ [endOrder],
      ending := Ending.threadExit }

/-- The record an order line becomes in the read loop. -/
def OrderLine.toOrder (line : OrderLine) : Order :=
  { customerId := line.customerId, productId := line.productId,
    quantity := line.quantity, isEndOfData := false }

/-- A run of `consumerThread`: the text sent to `std::cerr`, the run of the
loop (`none` when the thread ended before the loop) and the ending of the
thread when it does end. -/
structure ConsumerThreadRun (α : Type) where
  stderr : String
  loop : Option (ConsumerRun α)
  ending : Ending
  deriving DecidableEq, Repr

/-- The function `consumerThread` (lines 136-208). The argument `logOpened`
tells whether the file `log` could be opened; `stream` lists the records
`remove()` returns. -/
def consumerThread {α : Type} (D : DoubleOps α) (numProducers : Int) (logOpened : Bool)
    (inv : List (InventoryItem α)) (stream : List Order) : ConsumerThreadRun α :=
  if logOpened then
    { stderr := "", ending := Ending.threadExit,
      loop := some (consumerLoop D numProducers (ConsumerState.start inv) stream) }
  else
    { stderr := "Could not open log file\n", loop := none, ending := Ending.threadExit }

/-! ## The threads running together -/

/-- The state of the running program. `pending i` lists the records producer
`i` has still to pass to `insert`. The fields `origin` and `handled` are
bookkeeping, absent from the program: `origin` gives, for each record in the
buffer, the producer that inserted it, and `handled` lists the records the
consumer dequeued, each with its producer. -/
structure Sys (α : Type) where
  pending : List (List Order)
  channel : BoundedBuffer
  consumer : ConsumerState α
  origin : List Nat
  handled : List (Nat × Order)
  deriving DecidableEq, Repr

/-- One step of one thread: producer `i` completes an `insert`, or the
consumer completes one iteration of its loop. -/
inductive Action where
  | produce (i : Nat)
  | consume
  deriving DecidableEq, Repr

/-- The step of producer `i`: its next call of `insert` (lines 124, 130). It
is not enabled when the producer has ended or the buffer is full. -/
def produceStep {α : Type} (s : Sys α) (i : Nat) : Option (Sys α) :=
  match s.pending[i]? with
  | some (item :: rest) =>
    match s.channel.insert item with
    | some ch =>
      some { s with pending := s.pending.set i rest, channel := ch,
                    origin := s.origin ++ [i] }
    | none => none
  | _ => none

/-- The step of the consumer: the loop test, `remove()` and the loop body
(lines 155-204). It is not enabled when the loop has ended or the buffer is
empty. -/
def consumeStep {α : Type} (D : DoubleOps α) (numProducers : Int) (s : Sys α) :
    Option (Sys α) :=
  if s.consumer.producersFinished < numProducers then
    match s.channel.remove with
    | some (item, ch) =>
      some { s with channel := ch, consumer := consumerIter D s.consumer item,
                    origin := s.origin.tail,
                    handled := s.handled ++ [(s.origin.headD 0, item)] }
    | none => none
  else
    none

/-- One step of the program. -/
def sysStep {α : Type} (D : DoubleOps α) (numProducers : Int) (s : Sys α) :
    Action → Option (Sys α)
  | Action.produce i => produceStep s i
  | Action.consume => consumeStep D numProducers s

/-- Runs a schedule: the listed steps, one after another; `none` when a
listed step is not enabled. -/
def runSys {α : Type} (D : DoubleOps α) (numProducers : Int) :
    Sys α → List Action → Option (Sys α)
  | s, [] => some s
  | s, a :: rest =>
    match sysStep D numProducers s a with
    | some s1 => runSys D numProducers s1 rest
    | none => none

/-- The records producer `i` (thread number `i + 1`) passes to `insert`, for
each of the given order files, all of which open. -/
def producerInserts (files : List (List OrderLine × (OrderLine × OrderLine))) :
    List (List Order) :=
  files.enum.map (fun p => (producerThread (p.1 + 1) (some p.2.1) p.2.2).inserts)

/-- The state in which the threads start: nothing inserted, an empty buffer
of capacity `bufferSize`, and the consumer at the start of its loop. -/
def Sys.init {α : Type} (bufferSize : Nat)
    (files : List (List OrderLine × (OrderLine × OrderLine)))
    (inv : List (InventoryItem α)) : Sys α :=
  { pending := producerInserts files, channel := BoundedBuffer.new bufferSize,
    consumer := ConsumerState.start inv, origin := [], handled := [] }

/-- The records of a list of (producer, record) pairs that come from
producer `i`, in order. -/
def recordsFrom (i : Nat) (l : List (Nat × Order)) : List Order :=
  (l.filter (fun p => p.1 = i)).map Prod.snd

/-- The records dequeued by the consumer that producer `i` inserted. -/
def handledFrom {α : Type} (s : Sys α) (i : Nat) : List Order :=
  recordsFrom i s.handled

/-- Every record inserted so far, with its producer, in insertion order: the
records dequeued, then the records in the buffer. -/
def Sys.tagged {α : Type} (s : Sys α) : List (Nat × Order) :=
  s.handled ++ List.zip s.origin s.channel.buffer

/-- The invariant of the running program, where `all` lists, for each
producer, every record it passes to `insert`: the bookkeeping matches the
buffer; the records producer `i` inserted so far, followed by those it has
still to insert, are `all i`; the counter of the consumer is the number of
end-of-data records dequeued; and the log reports the real orders dequeued,
in order. -/
def SysInv {α : Type} (all : List (List Order)) (s : Sys α) : Prop :=
  s.origin.length = s.channel.buffer.length ∧
  s.pending.length = all.length ∧
  (∀ i, recordsFrom i s.tagged ++ s.pending.getD i [] = all.getD i []) ∧
  (∀ p ∈ s.tagged, p.1 < all.length) ∧
  s.consumer.producersFinished = (countSentinels (s.handled.map Prod.snd) : Int) ∧
  s.consumer.log.filterMap LogLine.order? =
    (realOrders (s.handled.map Prod.snd)).map
      (fun o => (o.customerId, o.productId, o.quantity))

/-! ## A small run, used to instantiate the results -/

/-- Two order files: the first holds the line `1 1 2`, the second is empty. -/
def demoFiles : List (List OrderLine × (OrderLine × OrderLine)) :=
  [([⟨1, 1, 2⟩], (⟨0, 0, 0⟩, ⟨0, 0, 0⟩)), ([], (⟨0, 0, 0⟩, ⟨0, 0, 0⟩))]

/-- The inventory `[(1, $2.00, 3, "Widget")]`, prices in cents. -/
def demoInventory : List (InventoryItem Nat) :=
  [{ productId := 1, price := 200, quantity := 3, description := "Widget" }]

/-- A schedule for two producers and a buffer of capacity 1: the second
producer inserts its end-of-data record, then the first producer inserts its
order and its end-of-data record, the consumer dequeuing after each insert. -/
def demoSchedule : List Action :=
  [Action.produce 1, Action.consume, Action.produce 0, Action.consume,
   Action.produce 0, Action.consume]

/-- The state `demoSchedule` leads to. -/
def demoFinal : Sys Nat :=
  { pending := [[], []]
    channel := { buffer := [], maxSize := 1 }
    consumer :=
      { producersFinished := 2
        inventory := [{ productId := 1, price := 200, quantity := 1, description := "Widget" }]
        log := [LogLine.header, LogLine.entry 1 1 "Widget" 2 "$4.00" "Filled"] }
    origin := []
    handled := [(1, ⟨0, 0, 0, true⟩), (0, ⟨1, 1, 2, false⟩), (0, ⟨0, 0, 0, true⟩)] }

/-! ## Lemmas on the bounded buffer -/

theorem insert_eq_some {b b1 : BoundedBuffer} {item : Order} (h : b.insert item = some b1) :
    b.buffer.length < b.maxSize ∧ b1.buffer = b.buffer ++ [item] ∧ b1.maxSize = b.maxSize := by
  unfold BoundedBuffer.insert at h
  split at h
  · rename_i hlt
    injection h with h
    subst h
    exact ⟨hlt, rfl, rfl⟩
  · cases h

theorem remove_eq_some {b b1 : BoundedBuffer} {item : Order} (h : b.remove = some (item, b1)) :
    b.buffer = item :: b1.buffer ∧ b1.maxSize = b.maxSize := by
  unfold BoundedBuffer.remove at h
  split at h
  · cases h
  · rename_i x rest hb
    injection h with h
    injection h with h1 h2
    subst h1
    subst h2
    exact ⟨hb, rfl⟩

theorem runOps_bound (ops : List BufferOp) :
    ∀ (b : BoundedBuffer) (out : List Order) (b1 : BoundedBuffer) (out1 : List Order),
      b.buffer.length ≤ b.maxSize → runOps (b, out) ops = some (b1, out1) →
      b1.buffer.length ≤ b1.maxSize ∧ b1.maxSize = b.maxSize := by
  induction ops with
  | nil =>
    intro b out b1 out1 hb h
    simp only [runOps, Option.some.injEq, Prod.mk.injEq] at h
    obtain ⟨rfl, _⟩ := h
    exact ⟨hb, rfl⟩
  | cons op ops ih =>
    intro b out b1 out1 hb h
    cases op with
    | insert item =>
      simp only [runOps] at h
      split at h
      · rename_i b2 hins
        obtain ⟨hlt, hbuf, hmax⟩ := insert_eq_some hins
        have h2 : b2.buffer.length ≤ b2.maxSize := by
          rw [hbuf, hmax, List.length_append, List.length_singleton]
          omega
        obtain ⟨r1, r2⟩ := ih b2 out b1 out1 h2 h
        exact ⟨r1, r2.trans hmax⟩
      · cases h
    | remove =>
      simp only [runOps] at h
      split at h
      · rename_i item b2 hrem
        obtain ⟨hbuf, hmax⟩ := remove_eq_some hrem
        have h2 : b2.buffer.length ≤ b2.maxSize := by
          rw [hbuf, List.length_cons] at hb
          rw [hmax]
          omega
        obtain ⟨r1, r2⟩ := ih b2 (out ++ [item]) b1 out1 h2 h
        exact ⟨r1, r2.trans hmax⟩
      · cases h

theorem runOps_fifo (ops : List BufferOp) :
    ∀ (b : BoundedBuffer) (out : List Order) (b1 : BoundedBuffer) (out1 : List Order),
      runOps (b, out) ops = some (b1, out1) →
      out1 ++ b1.buffer = out ++ b.buffer ++ insertedOf ops := by
  induction ops with
  | nil =>
    intro b out b1 out1 h
    simp only [runOps, Option.some.injEq, Prod.mk.injEq] at h
    obtain ⟨rfl, rfl⟩ := h
    simp [insertedOf]
  | cons op ops ih =>
    intro b out b1 out1 h
    cases op with
    | insert item =>
      simp only [runOps] at h
      split at h
      · rename_i b2 hins
        obtain ⟨_, hbuf, _⟩ := insert_eq_some hins
        rw [ih b2 out b1 out1 h, hbuf]
        simp [insertedOf]
      · cases h
    | remove =>
      simp only [runOps] at h
      split at h
      · rename_i item b2 hrem
        obtain ⟨hbuf, _⟩ := remove_eq_some hrem
        rw [ih b2 (out ++ [item]) b1 out1 h, hbuf]
        simp [insertedOf]
      · cases h

theorem runOps_append (l1 l2 : List BufferOp) :
    ∀ st : BoundedBuffer × List Order,
      runOps st (l1 ++ l2) = (runOps st l1).bind (fun st1 => runOps st1 l2) := by
  induction l1 with
  | nil => intro st; simp [runOps]
  | cons op l1 ih =>
    intro st
    obtain ⟨b, out⟩ := st
    cases op with
    | insert item =>
      simp only [List.cons_append, runOps]
      cases b.insert item with
      | none => simp
      | some b1 => simp [ih]
    | remove =>
      simp only [List.cons_append, runOps]
      cases b.remove with
      | none => simp
      | some r => simp [ih]

/-! ## The bounded buffer: size and order (C1, C2) -/

/-- C1. For every capacity `C` (in particular every `C ≥ 1`) and every
sequence of `insert` / `remove` calls that runs from the empty buffer, each
call taken only when its wait predicate holds: after every step, that is after
the first `k` calls for every `k`, the run has a state, and in it the number
of records in the buffer is at least 0 and at most `C`. -/
theorem buffer_size_within_capacity (C : Nat) (ops : List BufferOp) (b : BoundedBuffer)
    (out : List Order) (h : runOps (BoundedBuffer.new C, []) ops = some (b, out)) (k : Nat) :
    ∃ bk outk, runOps (BoundedBuffer.new C, []) (ops.take k) = some (bk, outk) ∧
      (0 : Int) ≤ (bk.buffer.length : Int) ∧ bk.buffer.length ≤ C ∧ bk.maxSize = C := by
  have hsplit := runOps_append (ops.take k) (ops.drop k) (BoundedBuffer.new C, [])
  rw [List.take_append_drop, h] at hsplit
  cases hk : runOps (BoundedBuffer.new C, []) (ops.take k) with
  | none => rw [hk] at hsplit; simp at hsplit
  | some st =>
    obtain ⟨bk, outk⟩ := st
    have hb := runOps_bound (ops.take k) (BoundedBuffer.new C) [] bk outk
      (by simp [BoundedBuffer.new]) hk
    refine ⟨bk, outk, rfl, Int.natCast_nonneg _, ?_, ?_⟩
    · have h1 := hb.1
      rw [hb.2] at h1
      exact h1
    · exact hb.2

/-- Witness of C1: capacity 1, the calls insert, remove, insert, looked at
after two of them. -/
theorem buffer_size_within_capacity_witness :
    ∃ bk outk,
      runOps (BoundedBuffer.new 1, [])
        (List.take 2 [BufferOp.insert ⟨1, 1, 2, false⟩, BufferOp.remove,
          BufferOp.insert ⟨0, 0, 0, true⟩]) = some (bk, outk) ∧
      (0 : Int) ≤ (bk.buffer.length : Int) ∧ bk.buffer.length ≤ 1 ∧ bk.maxSize = 1 :=
  buffer_size_within_capacity 1
    [BufferOp.insert ⟨1, 1, 2, false⟩, BufferOp.remove, BufferOp.insert ⟨0, 0, 0, true⟩]
    ⟨[⟨0, 0, 0, true⟩], 1⟩ [⟨1, 1, 2, false⟩] (by decide) 2

/-- C2. For every sequence of `insert` / `remove` calls that runs from the
empty buffer, each call taken only when its wait predicate holds: the records
returned by `remove`, in order, followed by the records in the buffer, front
first, are exactly the records passed to `insert`, in order. So the returned
records are the first ones inserted and the buffer holds the remaining ones:
nothing is dropped, duplicated or reordered. -/
theorem buffer_fifo (C : Nat) (ops : List BufferOp) (b : BoundedBuffer) (out : List Order)
    (h : runOps (BoundedBuffer.new C, []) ops = some (b, out)) :
    out ++ b.buffer = insertedOf ops ∧
      out = (insertedOf ops).take out.length ∧
      b.buffer = (insertedOf ops).drop out.length := by
  have h1 := runOps_fifo ops (BoundedBuffer.new C) [] b out h
  simp only [BoundedBuffer.new, List.append_nil, List.nil_append] at h1
  refine ⟨h1, ?_, ?_⟩
  · rw [← h1]; simp
  · rw [← h1]; simp

/-- Witness of C2: capacity 2, two inserts, one remove, one more insert. -/
theorem buffer_fifo_witness :
    ([⟨1, 1, 2, false⟩] : List Order) ++ [⟨2, 1, 5, false⟩, ⟨0, 0, 0, true⟩] =
        insertedOf [BufferOp.insert ⟨1, 1, 2, false⟩, BufferOp.insert ⟨2, 1, 5, false⟩,
          BufferOp.remove, BufferOp.insert ⟨0, 0, 0, true⟩] ∧
      ([⟨1, 1, 2, false⟩] : List Order) =
        (insertedOf [BufferOp.insert ⟨1, 1, 2, false⟩, BufferOp.insert ⟨2, 1, 5, false⟩,
          BufferOp.remove, BufferOp.insert ⟨0, 0, 0, true⟩]).take 1 ∧
      ([⟨2, 1, 5, false⟩, ⟨0, 0, 0, true⟩] : List Order) =
        (insertedOf [BufferOp.insert ⟨1, 1, 2, false⟩, BufferOp.insert ⟨2, 1, 5, false⟩,
          BufferOp.remove, BufferOp.insert ⟨0, 0, 0, true⟩]).drop 1 :=
  buffer_fifo 2
    [BufferOp.insert ⟨1, 1, 2, false⟩, BufferOp.insert ⟨2, 1, 5, false⟩,
      BufferOp.remove, BufferOp.insert ⟨0, 0, 0, true⟩]
    ⟨[⟨2, 1, 5, false⟩, ⟨0, 0, 0, true⟩], 2⟩ [⟨1, 1, 2, false⟩] (by decide)

/-! ## The locked block of the consumer (C6, C7, C8, C5) -/

theorem usub_eq_sub {a b : Nat} (hb : b ≤ a) (ha : a < UINT_MOD) : usub a b = a - b := by
  unfold usub UINT_MOD at *
  omega

theorem scanInventory_skip {α : Type} (D : DoubleOps α) (order : Order)
    (pre : List (InventoryItem α)) (hpre : ∀ x ∈ pre, x.productId ≠ order.productId)
    (l : List (InventoryItem α)) (v : OrderVars α) :
    scanInventory D order (pre ++ l) v =
      (pre ++ (scanInventory D order l v).1, (scanInventory D order l v).2) := by
  induction pre with
  | nil => simp
  | cons x pre ih =>
    have hx : x.productId ≠ order.productId := hpre x (List.mem_cons_self _ _)
    have ih1 := ih (fun y hy => hpre y (List.mem_cons_of_mem _ hy))
    rw [List.cons_append]
    show (if x.productId = order.productId then _ else _) = _
    rw [if_neg hx]
    show (x :: (scanInventory D order (pre ++ l) v).1, (scanInventory D order (pre ++ l) v).2) = _
    rw [ih1]
    rfl

theorem scanInventory_no_match {α : Type} (D : DoubleOps α) (order : Order)
    (inv : List (InventoryItem α)) (hinv : ∀ x ∈ inv, x.productId ≠ order.productId)
    (v : OrderVars α) : scanInventory D order inv v = (inv, v) := by
  have h := scanInventory_skip D order inv hinv [] v
  simpa [scanInventory] using h

/-- C6. When the first inventory record whose `productId` equals the order's
(`item`, after the records `pre`, none of which matches) has a quantity, a
value of type `unsigned int`, at least the ordered quantity, the locked block
ends with the message `Filled`, `orderFilled` and `itemFound` set, the amount
`order.quantity * item.price` and the description of `item`; the inventory is
the same except that the quantity of `item` went down by exactly the ordered
quantity: the records before it, the records after it (also those with the
same `productId`) and the other fields of `item` are as before. The log entry
reports that description, the formatted amount and `Filled`. -/
theorem order_filled {α : Type} (D : DoubleOps α) (pre post : List (InventoryItem α))
    (item : InventoryItem α) (order : Order)
    (hpre : ∀ x ∈ pre, x.productId ≠ order.productId)
    (hid : item.productId = order.productId)
    (hq : order.quantity ≤ item.quantity) (hwf : item.quantity < UINT_MOD) :
    lockedBlock D (pre ++ item :: post) order =
        (pre ++ { item with quantity := item.quantity - order.quantity } :: post,
          { orderFilled := true, itemFound := true,
            transactionAmount := D.qtyMul order.quantity item.price,
            productDesc := item.description, resultMessage := "Filled" }) ∧
      logEntry D order (lockedBlock D (pre ++ item :: post) order).2 =
        LogLine.entry order.customerId order.productId item.description order.quantity
          (D.formatPrice (D.qtyMul order.quantity item.price)) "Filled" := by
  have hblock : lockedBlock D (pre ++ item :: post) order =
      (pre ++ { item with quantity := item.quantity - order.quantity } :: post,
        { orderFilled := true, itemFound := true,
          transactionAmount := D.qtyMul order.quantity item.price,
          productDesc := item.description, resultMessage := "Filled" }) := by
    unfold lockedBlock
    simp only [scanInventory_skip D order pre hpre, scanInventory, if_pos hid]
    have hge : item.quantity ≥ order.quantity := hq
    simp [if_pos hge, usub_eq_sub hq hwf, OrderVars.init]
  refine ⟨hblock, ?_⟩
  rw [hblock]
  simp [logEntry]

/-- Witness of C6: inventory `[(1, $2.00, 3, "Widget")]` and the order
`(1, 1, 2)`: `Filled`, amount `$4.00`, quantity left 1. -/
theorem order_filled_witness :
    lockedBlock centsOps
        ([] ++ [({ productId := 1, price := 200, quantity := 3, description := "Widget" } :
          InventoryItem Nat)]) ⟨1, 1, 2, false⟩ =
        ([{ productId := 1, price := 200, quantity := 1, description := "Widget" }],
          { orderFilled := true, itemFound := true, transactionAmount := 400,
            productDesc := "Widget", resultMessage := "Filled" }) ∧
      logEntry centsOps ⟨1, 1, 2, false⟩
        (lockedBlock centsOps
          ([] ++ [({ productId := 1, price := 200, quantity := 3, description := "Widget" } :
            InventoryItem Nat)]) ⟨1, 1, 2, false⟩).2 =
        LogLine.entry 1 1 "Widget" 2 "$4.00" "Filled" :=
  order_filled centsOps [] []
    { productId := 1, price := 200, quantity := 3, description := "Widget" }
    ⟨1, 1, 2, false⟩ (by decide) (by decide) (by decide) (by decide)

/-- C7. When the first inventory record whose `productId` equals the order's
(`item`, after the records `pre`, none of which matches) has a quantity below
the ordered quantity, the locked block ends with the message
`Rejected - Insufficient quantity`, `itemFound` set, `orderFilled` clear, the
amount `0.0` and the description of `item`, and the inventory is unchanged,
whatever the records `post` after `item` are. The log entry reports the
description of `item`, the amount `$0.00` and that message. -/
theorem order_rejected_insufficient {α : Type} (D : DoubleOps α)
    (pre post : List (InventoryItem α)) (item : InventoryItem α) (order : Order)
    (hpre : ∀ x ∈ pre, x.productId ≠ order.productId)
    (hid : item.productId = order.productId)
    (hq : item.quantity < order.quantity) :
    lockedBlock D (pre ++ item :: post) order =
        (pre ++ item :: post,
          { orderFilled := false, itemFound := true, transactionAmount := D.zero,
            productDesc := item.description,
            resultMessage := "       Rejected - Insufficient quantity" }) ∧
      logEntry D order (lockedBlock D (pre ++ item :: post) order).2 =
        LogLine.entry order.customerId order.productId item.description order.quantity
          "$0.00" "       Rejected - Insufficient quantity" := by
  have hblock : lockedBlock D (pre ++ item :: post) order =
      (pre ++ item :: post,
        { orderFilled := false, itemFound := true, transactionAmount := D.zero,
          productDesc := item.description,
          resultMessage := "       Rejected - Insufficient quantity" }) := by
    unfold lockedBlock
    simp only [scanInventory_skip D order pre hpre, scanInventory, if_pos hid]
    have hge : ¬ item.quantity ≥ order.quantity := by omega
    simp [if_neg hge, OrderVars.init]
  refine ⟨hblock, ?_⟩
  rw [hblock]
  simp [logEntry]

/-- Witness of C7: inventory `[(1, $2.00, 3, "Widget"), (1, $2.00, 9, "Spare")]`
and the order `(1, 1, 5)`: rejected for insufficient quantity, the quantity
is still 3, although the second record has enough stock. -/
theorem order_rejected_insufficient_witness :
    lockedBlock centsOps
        ([] ++ ({ productId := 1, price := 200, quantity := 3, description := "Widget" } :
            InventoryItem Nat) ::
          [{ productId := 1, price := 200, quantity := 9, description := "Spare" }])
        ⟨1, 1, 5, false⟩ =
        ([] ++ ({ productId := 1, price := 200, quantity := 3, description := "Widget" } :
            InventoryItem Nat) ::
          [{ productId := 1, price := 200, quantity := 9, description := "Spare" }],
          { orderFilled := false, itemFound := true, transactionAmount := 0,
            productDesc := "Widget",
            resultMessage := "       Rejected - Insufficient quantity" }) ∧
      logEntry centsOps ⟨1, 1, 5, false⟩
        (lockedBlock centsOps
          ([] ++ ({ productId := 1, price := 200, quantity := 3, description := "Widget" } :
              InventoryItem Nat) ::
            [{ productId := 1, price := 200, quantity := 9, description := "Spare" }])
          ⟨1, 1, 5, false⟩).2 =
        LogLine.entry 1 1 "Widget" 5 "$0.00" "       Rejected - Insufficient quantity" :=
  order_rejected_insufficient centsOps []
    [{ productId := 1, price := 200, quantity := 9, description := "Spare" }]
    { productId := 1, price := 200, quantity := 3, description := "Widget" }
    ⟨1, 1, 5, false⟩ (by decide) (by decide) (by decide)

theorem lockedBlock_no_match {α : Type} (D : DoubleOps α) (inv : List (InventoryItem α))
    (order : Order) (hinv : ∀ x ∈ inv, x.productId ≠ order.productId) :
    lockedBlock D inv order =
      (inv, { orderFilled := false, itemFound := false, transactionAmount := D.zero,
              productDesc := "", resultMessage := "       Rejected - Item not found" }) := by
  unfold lockedBlock
  simp [scanInventory_no_match D order inv hinv, OrderVars.init]

/-- C8. When no inventory record has the order's `productId` (the empty
inventory included), the locked block ends with the message
`Rejected - Item not found`, `itemFound` and `orderFilled` clear and the
amount `0.0`; the log entry reports the description `Unknown Item` and the
amount `$0.00`; the inventory after the block is the inventory before it; and
the same order processed `n` times in a row, for every `n`, gives `n` times
that same outcome and leaves the inventory unchanged. -/
theorem order_rejected_not_found {α : Type} (D : DoubleOps α) (inv : List (InventoryItem α))
    (order : Order) (hinv : ∀ x ∈ inv, x.productId ≠ order.productId) :
    lockedBlock D inv order =
        (inv, { orderFilled := false, itemFound := false, transactionAmount := D.zero,
                productDesc := "", resultMessage := "       Rejected - Item not found" }) ∧
      logEntry D order (lockedBlock D inv order).2 =
        LogLine.entry order.customerId order.productId "Unknown Item" order.quantity
          "$0.00" "       Rejected - Item not found" ∧
      ∀ n : Nat, processOrders D inv (List.replicate n order) =
        (inv, List.replicate n (order, (lockedBlock D inv order).2)) := by
  have hblock := lockedBlock_no_match D inv order hinv
  refine ⟨hblock, ?_, ?_⟩
  · rw [hblock]
    simp [logEntry]
  · intro n
    induction n with
    | zero => simp [processOrders]
    | succ n ih =>
      rw [List.replicate_succ, List.replicate_succ]
      show ((processOrders D (lockedBlock D inv order).1 (List.replicate n order)).1,
        (order, (lockedBlock D inv order).2) ::
          (processOrders D (lockedBlock D inv order).1 (List.replicate n order)).2) = _
      have h1 : (lockedBlock D inv order).1 = inv := by rw [hblock]
      rw [h1, ih]

/-- Witness of C8: inventory `[(1, $2.00, 3, "Widget")]` and the order
`(1, 7, 2)` for the unknown product 7. -/
theorem order_rejected_not_found_witness :
    lockedBlock centsOps
        [({ productId := 1, price := 200, quantity := 3, description := "Widget" } :
          InventoryItem Nat)] ⟨1, 7, 2, false⟩ =
        ([{ productId := 1, price := 200, quantity := 3, description := "Widget" }],
          { orderFilled := false, itemFound := false, transactionAmount := 0,
            productDesc := "", resultMessage := "       Rejected - Item not found" }) ∧
      logEntry centsOps ⟨1, 7, 2, false⟩
        (lockedBlock centsOps
          [({ productId := 1, price := 200, quantity := 3, description := "Widget" } :
            InventoryItem Nat)] ⟨1, 7, 2, false⟩).2 =
        LogLine.entry 1 7 "Unknown Item" 2 "$0.00" "       Rejected - Item not found" ∧
      ∀ n : Nat,
        processOrders centsOps
          [({ productId := 1, price := 200, quantity := 3, description := "Widget" } :
            InventoryItem Nat)] (List.replicate n ⟨1, 7, 2, false⟩) =
        ([{ productId := 1, price := 200, quantity := 3, description := "Widget" }],
          List.replicate n (⟨1, 7, 2, false⟩,
            (lockedBlock centsOps
              [({ productId := 1, price := 200, quantity := 3, description := "Widget" } :
                InventoryItem Nat)] ⟨1, 7, 2, false⟩).2)) :=
  order_rejected_not_found centsOps
    [{ productId := 1, price := 200, quantity := 3, description := "Widget" }]
    ⟨1, 7, 2, false⟩ (by decide)

theorem scanInventory_stock {α : Type} (D : DoubleOps α) (order : Order) (p : Nat)
    (inv : List (InventoryItem α)) :
    ∀ (v : OrderVars α), v.orderFilled = false → InvWF inv →
      InvWF (scanInventory D order inv v).1 ∧
      ∀ q0, firstQty p inv = some q0 →
        ∃ q1, firstQty p (scanInventory D order inv v).1 = some q1 ∧
          q1 + (if order.productId = p ∧ (scanInventory D order inv v).2.orderFilled = true
                then order.quantity else 0) = q0 := by
  induction inv with
  | nil =>
    intro v _ hwf
    refine ⟨hwf, ?_⟩
    intro q0 h
    simp [firstQty] at h
  | cons item rest ih =>
    intro v hv hwf
    have hitem : item.quantity < UINT_MOD := hwf item (List.mem_cons_self _ _)
    have hrest : InvWF rest := fun x hx => hwf x (List.mem_cons_of_mem _ hx)
    by_cases hid : item.productId = order.productId
    · by_cases hq : item.quantity ≥ order.quantity
      · have hscan : scanInventory D order (item :: rest) v =
            ({ item with quantity := item.quantity - order.quantity } :: rest,
              { orderFilled := true, itemFound := true,
                transactionAmount := D.qtyMul order.quantity item.price,
                productDesc := item.description, resultMessage := "Filled" }) := by
          simp [scanInventory, if_pos hid, if_pos hq, usub_eq_sub hq hitem]
        rw [hscan]
        refine ⟨?_, ?_⟩
        · intro x hx
          rcases List.mem_cons.1 hx with rfl | hx
          · show item.quantity - order.quantity < UINT_MOD
            omega
          · exact hrest x hx
        · intro q0 h0
          by_cases hp : item.productId = p
          · have hq0 : item.quantity = q0 := by simpa [firstQty, hp] using h0
            refine ⟨item.quantity - order.quantity, by simp [firstQty, hp], ?_⟩
            have hop : order.productId = p := hid ▸ hp
            simp only [hop, and_self, if_true]
            omega
          · have hq0 : firstQty p rest = some q0 := by simpa [firstQty, hp] using h0
            refine ⟨q0, by simp [firstQty, hp, hq0], ?_⟩
            have hop : order.productId ≠ p := hid ▸ hp
            simp [hop]
      · have hscan : scanInventory D order (item :: rest) v =
            (item :: rest,
              { v with itemFound := true, productDesc := item.description,
                       resultMessage := "       Rejected - Insufficient quantity" }) := by
          simp [scanInventory, if_pos hid, if_neg hq]
        rw [hscan]
        refine ⟨hwf, ?_⟩
        intro q0 h0
        exact ⟨q0, h0, by simp [hv]⟩
    · have hscan : scanInventory D order (item :: rest) v =
          (item :: (scanInventory D order rest v).1, (scanInventory D order rest v).2) := by
        simp [scanInventory, if_neg hid]
      rw [hscan]
      obtain ⟨ihwf, ihq⟩ := ih v hv hrest
      refine ⟨?_, ?_⟩
      · intro x hx
        rcases List.mem_cons.1 hx with rfl | hx
        · exact hitem
        · exact ihwf x hx
      · intro q0 h0
        by_cases hp : item.productId = p
        · have hq0 : item.quantity = q0 := by simpa [firstQty, hp] using h0
          refine ⟨q0, by simp [firstQty, hp, hq0], ?_⟩
          have hop : order.productId ≠ p := fun h => hid (hp.trans h.symm)
          simp [hop]
        · have hq0 : firstQty p rest = some q0 := by simpa [firstQty, hp] using h0
          obtain ⟨q1, h1, h2⟩ := ihq q0 hq0
          exact ⟨q1, by simp [firstQty, hp, h1], h2⟩

theorem lockedBlock_stock {α : Type} (D : DoubleOps α) (order : Order) (p : Nat)
    (inv : List (InventoryItem α)) (hwf : InvWF inv) :
    InvWF (lockedBlock D inv order).1 ∧
      ∀ q0, firstQty p inv = some q0 →
        ∃ q1, firstQty p (lockedBlock D inv order).1 = some q1 ∧
          q1 + (if order.productId = p ∧ (lockedBlock D inv order).2.orderFilled = true
                then order.quantity else 0) = q0 := by
  have h := scanInventory_stock D order p inv (OrderVars.init D) rfl hwf
  unfold lockedBlock
  by_cases hf : (scanInventory D order inv (OrderVars.init D)).2.itemFound = false
  · simpa [hf] using h
  · simpa [hf] using h

theorem processOrders_stock {α : Type} (D : DoubleOps α) (p : Nat) (orders : List Order) :
    ∀ (inv : List (InventoryItem α)), InvWF inv → ∀ q0, firstQty p inv = some q0 →
      ∃ q1, firstQty p (processOrders D inv orders).1 = some q1 ∧
        q1 + filledSum p (processOrders D inv orders).2 = q0 := by
  induction orders with
  | nil =>
    intro inv _ q0 h0
    exact ⟨q0, by simpa [processOrders] using h0, by simp [processOrders, filledSum]⟩
  | cons order rest ih =>
    intro inv hwf q0 h0
    obtain ⟨hwf1, hstep⟩ := lockedBlock_stock D order p inv hwf
    obtain ⟨q1, h1, h2⟩ := hstep q0 h0
    obtain ⟨q2, h3, h4⟩ := ih (lockedBlock D inv order).1 hwf1 q1 h1
    refine ⟨q2, by simpa [processOrders] using h3, ?_⟩
    simp only [processOrders, filledSum]
    omega

/-- C5. For every inventory whose quantities are values of type
`unsigned int`, every product `p` present in it and every sequence of orders
run through the locked block one after another: the first record with
`productId = p` is still there, and its final quantity plus the sum of the
quantities of the filled orders for `p` is its initial quantity. As integers,
the final quantity is the initial quantity minus that sum, and it is not
negative: the subtraction `item.quantity -= order.quantity`, embedded with its
wrap-around, never wraps. -/
theorem stock_conservation {α : Type} (D : DoubleOps α) (inv : List (InventoryItem α))
    (p q0 : Nat) (orders : List Order) (hwf : InvWF inv) (hp : firstQty p inv = some q0) :
    ∃ q1, firstQty p (processOrders D inv orders).1 = some q1 ∧
      q1 + filledSum p (processOrders D inv orders).2 = q0 ∧
      (q1 : Int) = (q0 : Int) - (filledSum p (processOrders D inv orders).2 : Int) ∧
      (0 : Int) ≤ (q0 : Int) - (filledSum p (processOrders D inv orders).2 : Int) := by
  obtain ⟨q1, h1, h2⟩ := processOrders_stock D p orders inv hwf q0 hp
  exact ⟨q1, h1, h2, by omega, by omega⟩

/-- Witness of C5: inventory `[(1, $2.00, 3, "Widget")]` and the orders
`(1, 1, 2)`, `(2, 1, 5)`, `(3, 1, 1)` for product 1: the first and the third
are filled, the second is rejected, and 3 - (2 + 1) = 0 items are left. -/
theorem stock_conservation_witness :
    ∃ q1,
      firstQty 1 (processOrders centsOps
        [({ productId := 1, price := 200, quantity := 3, description := "Widget" } :
          InventoryItem Nat)]
        [⟨1, 1, 2, false⟩, ⟨2, 1, 5, false⟩, ⟨3, 1, 1, false⟩]).1 = some q1 ∧
      q1 + filledSum 1 (processOrders centsOps
        [({ productId := 1, price := 200, quantity := 3, description := "Widget" } :
          InventoryItem Nat)]
        [⟨1, 1, 2, false⟩, ⟨2, 1, 5, false⟩, ⟨3, 1, 1, false⟩]).2 = 3 ∧
      (q1 : Int) = (3 : Int) - (filledSum 1 (processOrders centsOps
        [({ productId := 1, price := 200, quantity := 3, description := "Widget" } :
          InventoryItem Nat)]
        [⟨1, 1, 2, false⟩, ⟨2, 1, 5, false⟩, ⟨3, 1, 1, false⟩]).2 : Int) ∧
      (0 : Int) ≤ (3 : Int) - (filledSum 1 (processOrders centsOps
        [({ productId := 1, price := 200, quantity := 3, description := "Widget" } :
          InventoryItem Nat)]
        [⟨1, 1, 2, false⟩, ⟨2, 1, 5, false⟩, ⟨3, 1, 1, false⟩]).2 : Int) :=
  stock_conservation centsOps
    [{ productId := 1, price := 200, quantity := 3, description := "Widget" }] 1 3
    [⟨1, 1, 2, false⟩, ⟨2, 1, 5, false⟩, ⟨3, 1, 1, false⟩]
    (by unfold InvWF; decide) (by decide)

/-! ## The producer (C4) -/

theorem producerLoop_eq_map (lines : List OrderLine) :
    ∀ order : Order, order.isEndOfData = false →
      producerLoop order lines = lines.map OrderLine.toOrder := by
  induction lines with
  | nil => intro order _; rfl
  | cons line rest ih =>
    intro order h
    simp only [producerLoop, List.map_cons]
    have h2 := ih ⟨line.customerId, line.productId, line.quantity, order.isEndOfData⟩ h
    rw [h2]
    simp [OrderLine.toOrder, h]

theorem countSentinels_append (l1 l2 : List Order) :
    countSentinels (l1 ++ l2) = countSentinels l1 + countSentinels l2 := by
  simp [countSentinels]

theorem countSentinels_map_toOrder (lines : List OrderLine) :
    countSentinels (lines.map OrderLine.toOrder) = 0 := by
  induction lines with
  | nil => rfl
  | cons line rest ih =>
    simp only [countSentinels] at ih
    simp [countSentinels, OrderLine.toOrder, ih]

theorem producerThread_inserts_eq (threadNum : Nat)
    (lines : List OrderLine) (stack : OrderLine × OrderLine) :
    (producerThread threadNum (some lines) stack).inserts =
      lines.map OrderLine.toOrder ++
        [{ customerId := stack.2.customerId, productId := stack.2.productId,
           quantity := stack.2.quantity, isEndOfData := true }] := by
  simp only [producerThread]
  rw [producerLoop_eq_map lines _ rfl]

/-- C4. For every producer whose order file opens and every list of lines
read from it (the empty list included), the records `producerThread` passes to
`insert` are the orders of those lines, in file order and each with
`isEndOfData` false, followed by one record with `isEndOfData` true: that
record is the last insert, it is the only end-of-data record inserted, and the
thread writes nothing to `std::cerr`. -/
theorem producer_inserts_orders_then_one_sentinel (threadNum : Nat) (lines : List OrderLine)
    (stack : OrderLine × OrderLine) :
    (producerThread threadNum (some lines) stack).inserts =
        lines.map OrderLine.toOrder ++
          [{ customerId := stack.2.customerId, productId := stack.2.productId,
             quantity := stack.2.quantity, isEndOfData := true }] ∧
      (∀ o ∈ lines.map OrderLine.toOrder, o.isEndOfData = false) ∧
      (producerThread threadNum (some lines) stack).inserts.dropLast =
        lines.map OrderLine.toOrder ∧
      ((producerThread threadNum (some lines) stack).inserts.getLast?).map
        (fun o => o.isEndOfData) = some true ∧
      countSentinels (producerThread threadNum (some lines) stack).inserts = 1 ∧
      (producerThread threadNum (some lines) stack).stderr = "" := by
  have hins : (producerThread threadNum (some lines) stack).inserts =
      lines.map OrderLine.toOrder ++
        [{ customerId := stack.2.customerId, productId := stack.2.productId,
           quantity := stack.2.quantity, isEndOfData := true }] :=
    producerThread_inserts_eq threadNum lines stack
  refine ⟨hins, ?_, ?_, ?_, ?_, ?_⟩
  · intro o ho
    obtain ⟨line, _, rfl⟩ := List.mem_map.1 ho
    rfl
  · rw [hins, List.dropLast_concat]
  · rw [hins, List.getLast?_concat]
    rfl
  · rw [hins, countSentinels_append, countSentinels_map_toOrder]
    rfl
  · rfl

/-! ## The consumer loop (C3) -/

theorem countSentinels_cons (o : Order) (l : List Order) :
    countSentinels (o :: l) = (if o.isEndOfData = true then 1 else 0) + countSentinels l := by
  by_cases h : o.isEndOfData = true
  · simp [countSentinels, h]; omega
  · simp [countSentinels, h]

theorem realOrders_cons (o : Order) (l : List Order) :
    realOrders (o :: l) = if o.isEndOfData = true then realOrders l else o :: realOrders l := by
  by_cases h : o.isEndOfData = true
  · simp [realOrders, h]
  · simp [realOrders, h]

theorem consumerLoop_spec {α : Type} (D : DoubleOps α) (N : Int) (stream : List Order) :
    ∀ s : ConsumerState α, s.producersFinished ≤ N →
      N - s.producersFinished ≤ (countSentinels stream : Int) →
      ∃ pre : List Order,
        stream = pre ++ (consumerLoop D N s stream).rest ∧
        (consumerLoop D N s stream).stopped = true ∧
        (consumerLoop D N s stream).state.producersFinished = N ∧
        (countSentinels pre : Int) = N - s.producersFinished ∧
        (¬ s.producersFinished < N → pre = []) ∧
        (s.producersFinished < N → ∃ front e, pre = front ++ [e] ∧ e.isEndOfData = true) ∧
        (consumerLoop D N s stream).state.inventory =
          (processOrders D s.inventory (realOrders pre)).1 ∧
        (consumerLoop D N s stream).state.log =
          s.log ++ (processOrders D s.inventory (realOrders pre)).2.map
            (fun x => logEntry D x.1 x.2) := by
  induction stream with
  | nil =>
    intro s hle hcnt
    have hN : ¬ s.producersFinished < N := by
      simp only [countSentinels, List.filter_nil, List.length_nil, Nat.cast_zero] at hcnt
      omega
    refine ⟨[], ?_, ?_, ?_, ?_, ?_, ?_, ?_, ?_⟩
    · simp [consumerLoop, hN]
    · simp [consumerLoop, hN]
    · simp only [consumerLoop, if_neg hN]; omega
    · simp only [countSentinels, List.filter_nil, List.length_nil, Nat.cast_zero]; omega
    · intro _; rfl
    · intro h; exact absurd h hN
    · simp [consumerLoop, hN, realOrders, processOrders]
    · simp [consumerLoop, hN, realOrders, processOrders]
  | cons o rest ih =>
    intro s hle hcnt
    by_cases hlt : s.producersFinished < N
    · have hloop : consumerLoop D N s (o :: rest) =
          consumerLoop D N (consumerIter D s o) rest := by
        simp [consumerLoop, hlt]
      rw [hloop]
      by_cases ho : o.isEndOfData = true
      · have hpf : (consumerIter D s o).producersFinished = s.producersFinished + 1 := by
          simp [consumerIter, ho]
        have hinv : (consumerIter D s o).inventory = s.inventory := by
          simp [consumerIter, ho]
        have hlog : (consumerIter D s o).log = s.log := by
          simp [consumerIter, ho]
        have hc : (countSentinels (o :: rest) : Int) = 1 + countSentinels rest := by
          rw [countSentinels_cons, if_pos ho]; push_cast; rfl
        obtain ⟨pre, h1, h2, h3, h4, h5, h6, h7, h8⟩ :=
          ih (consumerIter D s o) (by rw [hpf]; omega) (by rw [hpf]; omega)
        refine ⟨o :: pre, ?_, h2, h3, ?_, ?_, ?_, ?_, ?_⟩
        · rw [List.cons_append, ← h1]
        · rw [countSentinels_cons, if_pos ho]
          push_cast
          rw [h4, hpf]
          omega
        · intro h; exact absurd hlt h
        · intro _
          by_cases hnext : (consumerIter D s o).producersFinished < N
          · obtain ⟨front, e, hfe, he⟩ := h6 hnext
            exact ⟨o :: front, e, by rw [hfe, List.cons_append], he⟩
          · exact ⟨[], o, by rw [h5 hnext, List.nil_append], ho⟩
        · rw [h7, hinv, realOrders_cons, if_pos ho]
        · rw [h8, hinv, hlog, realOrders_cons, if_pos ho]
      · have hpf : (consumerIter D s o).producersFinished = s.producersFinished := by
          simp [consumerIter, ho]
        have hinv : (consumerIter D s o).inventory = (lockedBlock D s.inventory o).1 := by
          simp [consumerIter, ho]
        have hlog : (consumerIter D s o).log =
            s.log ++ [logEntry D o (lockedBlock D s.inventory o).2] := by
          simp [consumerIter, ho]
        have hc : (countSentinels (o :: rest) : Int) = countSentinels rest := by
          rw [countSentinels_cons, if_neg ho]; push_cast; omega
        obtain ⟨pre, h1, h2, h3, h4, h5, h6, h7, h8⟩ :=
          ih (consumerIter D s o) (by rw [hpf]; omega) (by rw [hpf]; omega)
        refine ⟨o :: pre, ?_, h2, h3, ?_, ?_, ?_, ?_, ?_⟩
        · rw [List.cons_append, ← h1]
        · rw [countSentinels_cons, if_neg ho]
          push_cast
          rw [h4, hpf]
          omega
        · intro h; exact absurd hlt h
        · intro _
          obtain ⟨front, e, hfe, he⟩ := h6 (by rw [hpf]; exact hlt)
          exact ⟨o :: front, e, by rw [hfe, List.cons_append], he⟩
        · rw [h7, hinv, realOrders_cons, if_neg ho]
          rfl
        · rw [h8, hinv, hlog, realOrders_cons, if_neg ho]
          simp [processOrders]
    · have hloop : consumerLoop D N s (o :: rest) =
          { stopped := true, state := s, rest := o :: rest } := by
        simp [consumerLoop, hlt]
      rw [hloop]
      refine ⟨[], rfl, rfl, ?_, ?_, ?_, ?_, ?_, ?_⟩
      · show s.producersFinished = N
        omega
      · simp only [countSentinels, List.filter_nil, List.length_nil, Nat.cast_zero]; omega
      · intro _; rfl
      · intro h; exact absurd h hlt
      · simp [realOrders, processOrders]
      · simp [realOrders, processOrders]

theorem dequeuedOf_append (pre rest : List Order) : dequeuedOf (pre ++ rest) rest = pre := by
  simp [dequeuedOf]

theorem processOrders_log_orders {α : Type} (D : DoubleOps α) (orders : List Order) :
    ∀ inv : List (InventoryItem α),
      ((processOrders D inv orders).2.map (fun x => logEntry D x.1 x.2)).filterMap
          LogLine.order? =
        orders.map (fun o => (o.customerId, o.productId, o.quantity)) := by
  induction orders with
  | nil => intro inv; simp [processOrders]
  | cons o rest ih =>
    intro inv
    simp only [processOrders, List.map_cons]
    rw [List.filterMap_cons_some (by simp [logEntry, LogLine.order?] :
      (logEntry D o (lockedBlock D inv o).2).order? = some (o.customerId, o.productId, o.quantity))]
    rw [ih]

theorem processOrders_length {α : Type} (D : DoubleOps α) (orders : List Order) :
    ∀ inv : List (InventoryItem α), (processOrders D inv orders).2.length = orders.length := by
  induction orders with
  | nil => intro inv; simp [processOrders]
  | cons o rest ih => intro inv; simp [processOrders, ih]

/-- C3. For every `N ≥ 1` (`numProducers`) and every stream of records
returned by `remove()` that holds at least `N` end-of-data records, the loop
of `consumerThread`, started with counter 0 and a log holding the header,
stops (it does not end waiting in `remove()`); the records it dequeued,
followed by the records it left, are the stream; it counted `N`; the dequeued
records hold exactly `N` end-of-data records and the last of them is one, so
the loop stopped right after the `N`-th and dequeued nothing after it; the log
is the header followed by the entries of the real orders dequeued, one each
and in dequeue order, as the locked block produces them; and the inventory is
the one those orders leave. -/
theorem consumer_stops_after_nth_sentinel {α : Type} (D : DoubleOps α) (N : Nat)
    (inv : List (InventoryItem α)) (stream : List Order)
    (hN : 1 ≤ N) (hs : N ≤ countSentinels stream) :
    (consumerLoop D N (ConsumerState.start inv) stream).stopped = true ∧
      stream =
        dequeuedOf stream (consumerLoop D N (ConsumerState.start inv) stream).rest ++
          (consumerLoop D N (ConsumerState.start inv) stream).rest ∧
      (consumerLoop D N (ConsumerState.start inv) stream).state.producersFinished = N ∧
      countSentinels
        (dequeuedOf stream (consumerLoop D N (ConsumerState.start inv) stream).rest) = N ∧
      (∃ front e,
        dequeuedOf stream (consumerLoop D N (ConsumerState.start inv) stream).rest =
          front ++ [e] ∧ e.isEndOfData = true) ∧
      (consumerLoop D N (ConsumerState.start inv) stream).state.log =
        LogLine.header ::
          (processOrders D inv (realOrders
            (dequeuedOf stream (consumerLoop D N (ConsumerState.start inv) stream).rest))).2.map
            (fun x => logEntry D x.1 x.2) ∧
      (consumerLoop D N (ConsumerState.start inv) stream).state.log.filterMap LogLine.order? =
        (realOrders
          (dequeuedOf stream (consumerLoop D N (ConsumerState.start inv) stream).rest)).map
          (fun o => (o.customerId, o.productId, o.quantity)) ∧
      (consumerLoop D N (ConsumerState.start inv) stream).state.log.length =
        1 + (realOrders
          (dequeuedOf stream (consumerLoop D N (ConsumerState.start inv) stream).rest)).length ∧
      (consumerLoop D N (ConsumerState.start inv) stream).state.inventory =
        (processOrders D inv (realOrders
          (dequeuedOf stream (consumerLoop D N (ConsumerState.start inv) stream).rest))).1 := by
  have hstart : (ConsumerState.start inv).producersFinished = 0 := rfl
  obtain ⟨pre, h1, h2, h3, h4, _, h6, h7, h8⟩ :=
    consumerLoop_spec D (N : Int) stream (ConsumerState.start inv)
      (by rw [hstart]; omega) (by rw [hstart]; omega)
  have hdeq : dequeuedOf stream (consumerLoop D N (ConsumerState.start inv) stream).rest =
      pre := by
    have h := dequeuedOf_append pre (consumerLoop D N (ConsumerState.start inv) stream).rest
    rw [← h1] at h
    exact h
  rw [hdeq]
  have hlog : (consumerLoop D N (ConsumerState.start inv) stream).state.log =
      LogLine.header ::
        (processOrders D inv (realOrders pre)).2.map (fun x => logEntry D x.1 x.2) := by
    rw [h8]; rfl
  refine ⟨h2, h1, h3, ?_, h6 (by rw [hstart]; omega), hlog, ?_, ?_, h7⟩
  · rw [hstart] at h4
    omega
  · rw [hlog, List.filterMap_cons_none (by rfl : LogLine.header.order? = none)]
    exact processOrders_log_orders D (realOrders pre) inv
  · rw [hlog, List.length_cons, List.length_map, processOrders_length]
    omega

/-- Witness of C3: `N = 2` and the stream of two end-of-data records: both
hypotheses hold, the loop stops, nothing is left of the stream, and the log
holds only the header. -/
theorem consumer_stops_after_nth_sentinel_witness :
    (1 ≤ 2 ∧ 2 ≤ countSentinels [⟨0, 0, 0, true⟩, ⟨0, 0, 0, true⟩]) ∧
      (consumerLoop centsOps ((2 : Nat) : Int) (ConsumerState.start [])
        [⟨0, 0, 0, true⟩, ⟨0, 0, 0, true⟩]).stopped = true ∧
      (consumerLoop centsOps ((2 : Nat) : Int) (ConsumerState.start [])
        [⟨0, 0, 0, true⟩, ⟨0, 0, 0, true⟩]).rest = [] ∧
      (consumerLoop centsOps ((2 : Nat) : Int) (ConsumerState.start [])
        [⟨0, 0, 0, true⟩, ⟨0, 0, 0, true⟩]).state.log = [LogLine.header] :=
  ⟨by decide,
    (consumer_stops_after_nth_sentinel centsOps 2 [] [⟨0, 0, 0, true⟩, ⟨0, 0, 0, true⟩]
      (by decide) (by decide)).1,
    by decide, by decide⟩

/-! ## The threads running together (C10) -/

theorem recordsFrom_append (i : Nat) (l1 l2 : List (Nat × Order)) :
    recordsFrom i (l1 ++ l2) = recordsFrom i l1 ++ recordsFrom i l2 := by
  simp [recordsFrom]

theorem recordsFrom_cons (i t : Nat) (o : Order) (l : List (Nat × Order)) :
    recordsFrom i ((t, o) :: l) = if t = i then o :: recordsFrom i l else recordsFrom i l := by
  by_cases h : t = i
  · simp [recordsFrom, h]
  · simp [recordsFrom, h]

theorem realOrders_append (l1 l2 : List Order) :
    realOrders (l1 ++ l2) = realOrders l1 ++ realOrders l2 := by
  simp [realOrders]

theorem produceStep_eq_some {α : Type} {s s1 : Sys α} {i : Nat}
    (h : produceStep s i = some s1) :
    ∃ item rest ch, s.pending[i]? = some (item :: rest) ∧
      s.channel.insert item = some ch ∧
      s1 = { s with pending := s.pending.set i rest, channel := ch,
                    origin := s.origin ++ [i] } := by
  unfold produceStep at h
  split at h
  · rename_i item rest hp
    split at h
    · rename_i ch hins
      injection h with h
      exact ⟨item, rest, ch, hp, hins, h.symm⟩
    · cases h
  · cases h

theorem consumeStep_eq_some {α : Type} {D : DoubleOps α} {N : Int} {s s1 : Sys α}
    (h : consumeStep D N s = some s1) :
    s.consumer.producersFinished < N ∧
    ∃ item ch, s.channel.remove = some (item, ch) ∧
      s1 = { s with channel := ch, consumer := consumerIter D s.consumer item,
                    origin := s.origin.tail,
                    handled := s.handled ++ [(s.origin.headD 0, item)] } := by
  unfold consumeStep at h
  split at h
  · rename_i hlt
    split at h
    · rename_i item ch hrem
      injection h with h
      exact ⟨hlt, item, ch, hrem, h.symm⟩
    · cases h
  · cases h

theorem produceStep_inv {α : Type} (all : List (List Order)) {s s1 : Sys α} {i : Nat}
    (hinv : SysInv all s) (h : produceStep s i = some s1) : SysInv all s1 := by
  obtain ⟨item, rest, ch, hp, hins, rfl⟩ := produceStep_eq_some h
  obtain ⟨ha, hb, hc, hd, he, hf⟩ := hinv
  obtain ⟨_, hbuf, _⟩ := insert_eq_some hins
  have hi : i < s.pending.length := by
    by_contra hcon
    rw [List.getElem?_eq_none (by omega)] at hp
    cases hp
  have htag : Sys.tagged
      { s with pending := s.pending.set i rest, channel := ch, origin := s.origin ++ [i] } =
      s.tagged ++ [(i, item)] := by
    simp only [Sys.tagged, hbuf]
    rw [List.zip_append ha, List.append_assoc]
    rfl
  refine ⟨?_, ?_, ?_, ?_, he, hf⟩
  · simp only [hbuf, List.length_append, List.length_singleton, ha]
  · simp only [List.length_set, hb]
  · intro j
    rw [htag, recordsFrom_append, recordsFrom_cons]
    have hcj := hc j
    by_cases hij : i = j
    · subst hij
      simp only [List.getD_eq_getElem?_getD, hp, Option.getD_some] at hcj
      simp only [if_true, List.getD_eq_getElem?_getD, List.getElem?_set_self hi,
        Option.getD_some]
      rw [← hcj]
      simp [recordsFrom]
    · simp only [if_neg hij, List.getD_eq_getElem?_getD, List.getElem?_set_ne hij] at hcj ⊢
      rw [← hcj]
      simp [recordsFrom]
  · intro p hp1
    rw [htag] at hp1
    rcases List.mem_append.1 hp1 with hp2 | hp2
    · exact hd p hp2
    · simp only [List.mem_singleton] at hp2
      subst hp2
      show i < all.length
      omega

theorem consumeStep_inv {α : Type} (D : DoubleOps α) (N : Int) (all : List (List Order))
    {s s1 : Sys α} (hinv : SysInv all s) (h : consumeStep D N s = some s1) :
    SysInv all s1 := by
  obtain ⟨_, item, ch, hrem, rfl⟩ := consumeStep_eq_some h
  obtain ⟨ha, hb, hc, hd, he, hf⟩ := hinv
  obtain ⟨hbuf, _⟩ := remove_eq_some hrem
  obtain ⟨t, ts, hts⟩ : ∃ t ts, s.origin = t :: ts := by
    cases hor : s.origin with
    | nil => rw [hor, hbuf] at ha; simp at ha
    | cons t ts => exact ⟨t, ts, rfl⟩
  have htag : Sys.tagged
      { s with channel := ch, consumer := consumerIter D s.consumer item,
               origin := s.origin.tail,
               handled := s.handled ++ [(s.origin.headD 0, item)] } =
      s.tagged := by
    simp only [Sys.tagged, hts, hbuf, List.tail_cons, List.headD_cons, List.zip_cons_cons,
      List.append_assoc, List.singleton_append]
  refine ⟨?_, hb, ?_, ?_, ?_, ?_⟩
  · rw [hts, hbuf] at ha
    simp only [List.length_cons] at ha
    simp only [hts, List.tail_cons]
    omega
  · intro j
    rw [htag]
    exact hc j
  · intro p hp1
    rw [htag] at hp1
    exact hd p hp1
  · by_cases ho : item.isEndOfData = true
    · simp only [consumerIter, ho, if_true, List.map_append, List.map_cons, List.map_nil,
        countSentinels_append, countSentinels_cons, he]
      simp [countSentinels]
    · simp only [consumerIter, ho, List.map_append, List.map_cons, List.map_nil,
        countSentinels_append, countSentinels_cons, he]
      simp [countSentinels]
  · by_cases ho : item.isEndOfData = true
    · simp only [consumerIter, ho, if_true, List.map_append, List.map_cons, List.map_nil,
        realOrders_append, realOrders_cons, hf]
      simp [realOrders]
    · simp only [consumerIter, ho, List.map_append, List.map_cons, List.map_nil,
        realOrders_append, realOrders_cons]
      simp [realOrders, hf, logEntry, LogLine.order?]

theorem runSys_inv {α : Type} (D : DoubleOps α) (N : Int) (all : List (List Order))
    (sched : List Action) :
    ∀ s s1 : Sys α, SysInv all s → runSys D N s sched = some s1 → SysInv all s1 := by
  induction sched with
  | nil =>
    intro s s1 hinv h
    simp only [runSys, Option.some.injEq] at h
    subst h
    exact hinv
  | cons a rest ih =>
    intro s s1 hinv h
    simp only [runSys] at h
    split at h
    · rename_i s2 hstep
      refine ih s2 s1 ?_ h
      cases a with
      | produce i => exact produceStep_inv all hinv hstep
      | consume => exact consumeStep_inv D N all hinv hstep
    · cases h

theorem init_inv {α : Type} (bufferSize : Nat)
    (files : List (List OrderLine × (OrderLine × OrderLine))) (inv : List (InventoryItem α)) :
    SysInv (producerInserts files) (Sys.init bufferSize files inv : Sys α) := by
  refine ⟨rfl, rfl, ?_, ?_, rfl, rfl⟩
  · intro i
    simp [Sys.init, Sys.tagged, BoundedBuffer.new, recordsFrom]
  · intro p hp
    simp [Sys.init, Sys.tagged, BoundedBuffer.new] at hp

theorem producerInserts_length (files : List (List OrderLine × (OrderLine × OrderLine))) :
    (producerInserts files).length = files.length := by
  simp [producerInserts]

theorem producerInserts_getD (files : List (List OrderLine × (OrderLine × OrderLine)))
    (i : Nat) (h : i < files.length) :
    ∃ e : Order, e.isEndOfData = true ∧
      (producerInserts files).getD i [] = files[i].1.map OrderLine.toOrder ++ [e] := by
  refine ⟨{ customerId := files[i].2.2.customerId, productId := files[i].2.2.productId,
            quantity := files[i].2.2.quantity, isEndOfData := true }, rfl, ?_⟩
  simp only [producerInserts, List.getD_eq_getElem?_getD, List.getElem?_map,
    List.getElem?_enum, List.getElem?_eq_getElem h, Option.map_some', Option.getD_some]
  exact (producerThread_inserts_eq (i + 1) files[i].1 files[i].2)

theorem countSentinels_recordsFrom_sum (N : Nat) (l : List (Nat × Order)) :
    (∀ p ∈ l, p.1 < N) →
      countSentinels (l.map Prod.snd) =
        Finset.sum (Finset.range N) (fun i => countSentinels (recordsFrom i l)) := by
  induction l with
  | nil => intro _; simp [countSentinels, recordsFrom]
  | cons p rest ih =>
    intro hl
    obtain ⟨t, o⟩ := p
    have ht : t < N := hl (t, o) (List.mem_cons_self _ _)
    have ih1 := ih (fun q hq => hl q (List.mem_cons_of_mem _ hq))
    have hterm : ∀ i, countSentinels (recordsFrom i ((t, o) :: rest)) =
        (if t = i then (if o.isEndOfData = true then 1 else 0) else 0) +
          countSentinels (recordsFrom i rest) := by
      intro i
      rw [recordsFrom_cons]
      by_cases hti : t = i
      · simp only [if_pos hti, countSentinels_cons]
      · simp only [if_neg hti, Nat.zero_add]
    simp only [List.map_cons, countSentinels_cons, hterm, Finset.sum_add_distrib,
      Finset.sum_ite_eq, Finset.mem_range, ht, if_true, ih1]

theorem append_eq_concat_sentinel {A X R : List Order} {e : Order}
    (h : A ++ X = R ++ [e]) (hR : countSentinels R = 0) (hA : 1 ≤ countSentinels A) :
    X = [] ∧ A = R ++ [e] := by
  rcases List.eq_nil_or_concat X with hX | ⟨X1, x, hX⟩
  · subst hX
    exact ⟨rfl, by simpa using h⟩
  · exfalso
    subst hX
    rw [List.concat_eq_append, ← List.append_assoc] at h
    have h1 : A ++ X1 = R := (List.append_inj' h rfl).1
    have h2 : countSentinels (A ++ X1) = 0 := by rw [h1]; exact hR
    rw [countSentinels_append] at h2
    omega

theorem realOrders_map_toOrder (lines : List OrderLine) :
    realOrders (lines.map OrderLine.toOrder) = lines.map OrderLine.toOrder := by
  induction lines with
  | nil => rfl
  | cons line rest ih =>
    simp only [realOrders] at ih
    simp [realOrders, OrderLine.toOrder, ih]

theorem stopped_state_facts {α : Type} (files : List (List OrderLine × (OrderLine × OrderLine)))
    (s : Sys α) (hinv : SysInv (producerInserts files) s)
    (hstop : ¬ s.consumer.producersFinished < (files.length : Int)) :
    ∀ i (h : i < files.length),
      recordsFrom i (List.zip s.origin s.channel.buffer) = [] ∧ s.pending.getD i [] = [] ∧
      ∃ e : Order, e.isEndOfData = true ∧
        recordsFrom i s.handled = files[i].1.map OrderLine.toOrder ++ [e] := by
  obtain ⟨_, _, hc, hd, he, _⟩ := hinv
  rw [producerInserts_length] at hd
  have hhand : ∀ p ∈ s.handled, p.1 < files.length := fun p hp =>
    hd p (by simp only [Sys.tagged]; exact List.mem_append_left _ hp)
  have hsum := countSentinels_recordsFrom_sum files.length s.handled hhand
  have hsplit : ∀ i (h : i < files.length), ∃ e : Order, e.isEndOfData = true ∧
      recordsFrom i s.handled ++
          (recordsFrom i (List.zip s.origin s.channel.buffer) ++ s.pending.getD i []) =
        files[i].1.map OrderLine.toOrder ++ [e] := by
    intro i h
    obtain ⟨e, he1, he2⟩ := producerInserts_getD files i h
    refine ⟨e, he1, ?_⟩
    rw [← he2, ← hc i, Sys.tagged, recordsFrom_append, List.append_assoc]
  have hle : ∀ i ∈ Finset.range files.length, countSentinels (recordsFrom i s.handled) ≤ 1 := by
    intro i hi
    obtain ⟨e, he1, he2⟩ := hsplit i (Finset.mem_range.1 hi)
    have hcount := congrArg countSentinels he2
    simp only [countSentinels_append, countSentinels_map_toOrder, countSentinels_cons,
      if_pos he1] at hcount
    simp only [countSentinels, List.filter_nil, List.length_nil] at hcount ⊢
    omega
  have hone : ∀ i, i < files.length → countSentinels (recordsFrom i s.handled) = 1 := by
    intro i h
    by_contra hne
    have hlt : Finset.sum (Finset.range files.length)
          (fun j => countSentinels (recordsFrom j s.handled)) <
        Finset.sum (Finset.range files.length) (fun _ => 1) :=
      Finset.sum_lt_sum hle ⟨i, Finset.mem_range.2 h, by
        have := hle i (Finset.mem_range.2 h)
        omega⟩
    simp only [Finset.sum_const, Finset.card_range, smul_eq_mul, mul_one] at hlt
    rw [← hsum] at hlt
    rw [he] at hstop
    omega
  intro i h
  obtain ⟨e, he1, he2⟩ := hsplit i h
  obtain ⟨hX, hA⟩ := append_eq_concat_sentinel he2 (countSentinels_map_toOrder _)
    (by rw [hone i h])
  obtain ⟨hz, hpend⟩ := List.append_eq_nil.1 hX
  exact ⟨hz, hpend, e, he1, hA⟩

/-- C10. Take any number of producers, each with an order file that opens
and a finite list of lines, a buffer of any capacity and the consumer loop,
and any schedule of producer and consumer steps that runs from the start. If
in the state reached the consumer has stopped (`producersFinished` is not
below `numProducers`, the number of producers), then every producer has
inserted all of its records; the buffer is empty; for each producer `i`, the
real orders the consumer dequeued from `i` are the orders of the lines of
`i`, each once and in file order, and the consumer dequeued exactly one
end-of-data record of `i`; and the log reports the real orders dequeued, one
entry each, in dequeue order. -/
theorem consumer_stopped_all_orders_processed {α : Type} (D : DoubleOps α) (bufferSize : Nat)
    (files : List (List OrderLine × (OrderLine × OrderLine))) (inv : List (InventoryItem α))
    (sched : List Action) (s : Sys α)
    (hrun : runSys D (files.length : Int) (Sys.init bufferSize files inv) sched = some s)
    (hstop : ¬ s.consumer.producersFinished < (files.length : Int)) :
    s.pending.length = files.length ∧
      (∀ pend ∈ s.pending, pend = []) ∧
      s.channel.buffer = [] ∧
      (∀ i (h : i < files.length),
        realOrders (handledFrom s i) = files[i].1.map OrderLine.toOrder ∧
        countSentinels (handledFrom s i) = 1) ∧
      s.consumer.log.filterMap LogLine.order? =
        (realOrders (s.handled.map Prod.snd)).map
          (fun o => (o.customerId, o.productId, o.quantity)) := by
  have hinv : SysInv (producerInserts files) s :=
    runSys_inv D files.length (producerInserts files) sched _ s
      (init_inv bufferSize files inv) hrun
  have hfacts := stopped_state_facts files s hinv hstop
  obtain ⟨ha, hb, _, hd, _, hf⟩ := hinv
  rw [producerInserts_length] at hb hd
  refine ⟨hb, ?_, ?_, ?_, hf⟩
  · intro pend hpend
    obtain ⟨i, hi, hget⟩ := List.getElem_of_mem hpend
    have h1 := (hfacts i (by omega)).2.1
    rw [List.getD_eq_getElem?_getD, List.getElem?_eq_getElem hi, Option.getD_some, hget] at h1
    exact h1
  · cases hbuf : s.channel.buffer with
    | nil => rfl
    | cons o rest =>
      exfalso
      rw [hbuf] at ha
      cases hor : s.origin with
      | nil => rw [hor] at ha; simp at ha
      | cons t ts =>
        have hmem : (t, o) ∈ s.tagged := by
          simp only [Sys.tagged, hor, hbuf, List.zip_cons_cons]
          exact List.mem_append_right _ (List.mem_cons_self _ _)
        have ht : t < files.length := hd (t, o) hmem
        have hz := (hfacts t ht).1
        rw [hor, hbuf, List.zip_cons_cons, recordsFrom_cons, if_pos rfl] at hz
        cases hz
  · intro i h
    obtain ⟨_, _, e, he1, he2⟩ := hfacts i h
    refine ⟨?_, ?_⟩
    · rw [handledFrom, he2, realOrders_append, realOrders_map_toOrder, realOrders_cons,
        if_pos he1]
      simp [realOrders]
    · rw [handledFrom, he2, countSentinels_append, countSentinels_map_toOrder,
        countSentinels_cons, if_pos he1]
      simp [countSentinels]

/-- Witness of C10: two producers, capacity 1, the schedule `demoSchedule`:
the run reaches `demoFinal`, where the consumer has stopped. -/
theorem consumer_stopped_all_orders_processed_witness :
    (runSys centsOps (demoFiles.length : Int) (Sys.init 1 demoFiles demoInventory)
        demoSchedule = some demoFinal ∧
      ¬ demoFinal.consumer.producersFinished < (demoFiles.length : Int)) ∧
    (demoFinal.pending.length = demoFiles.length ∧
      (∀ pend ∈ demoFinal.pending, pend = []) ∧
      demoFinal.channel.buffer = [] ∧
      (∀ i (h : i < demoFiles.length),
        realOrders (handledFrom demoFinal i) = demoFiles[i].1.map OrderLine.toOrder ∧
        countSentinels (handledFrom demoFinal i) = 1) ∧
      demoFinal.consumer.log.filterMap LogLine.order? =
        (realOrders (demoFinal.handled.map Prod.snd)).map
          (fun o => (o.customerId, o.productId, o.quantity))) :=
  ⟨⟨by decide, by decide⟩,
    consumer_stopped_all_orders_processed centsOps 1 demoFiles demoInventory demoSchedule
      demoFinal (by decide) (by decide)⟩

/-! ## Files that cannot be opened (C9) -/

/-- C9, the code at the failing input. When the file `orders<k>` cannot be
opened, `producerThread` prints `Could not open orders<k>` and ends with
`pthread_exit(NULL)`: only the thread ends, the process does not exit with
status 1, and no end-of-data record is inserted; with one producer the
consumer then waits in `remove()` and never stops. When `log` cannot be
opened, `consumerThread` prints `Could not open log file` and ends its thread
the same way. The functions `readInventory` and `writeInventory` do print the
file name and end the process with `exit(1)`. -/
theorem open_failure_in_thread_does_not_exit_process {α : Type} (D : DoubleOps α)
    (threadNum : Nat) (stack : OrderLine × OrderLine) (numProducers : Int)
    (inv : List (InventoryItem α)) (stream : List Order) (filename : String) :
    (producerThread threadNum none stack).stderr =
        "Could not open " ++ ("orders" ++ toString threadNum) ++ "\n" ∧
      (producerThread threadNum none stack).ending = Ending.threadExit ∧
      (producerThread threadNum none stack).ending ≠ Ending.processExit 1 ∧
      (producerThread threadNum none stack).inserts = [] ∧
      (consumerLoop D 1 (ConsumerState.start inv)
        (producerThread 1 none stack).inserts).stopped = false ∧
      (consumerThread D numProducers false inv stream).stderr = "Could not open log file\n" ∧
      (consumerThread D numProducers false inv stream).ending = Ending.threadExit ∧
      (consumerThread D numProducers false inv stream).ending ≠ Ending.processExit 1 ∧
      (readInventory filename none inv).1 = "Could not open " ++ filename ++ "\n" ∧
      (readInventory filename none inv).2.1 = Ending.processExit 1 ∧
      (writeInventory filename false inv).1 = "Could not open " ++ filename ++ "\n" ∧
      (writeInventory filename false inv).2.1 = Ending.processExit 1 := by
  refine ⟨rfl, rfl, ?_, rfl, ?_, rfl, rfl, ?_, rfl, rfl, rfl, rfl⟩
  · simp [producerThread]
  · simp [producerThread, consumerLoop, ConsumerState.start]
  · simp [consumerThread]

end Proj05
